import Mathlib

/-!
Verification development for the Imagin'Arte order/inventory manager.

The data model and the operations below are shallow embeddings of the
TypeScript source: the row types of src/types/index.ts, the data-access
layer of the inventory-adjusting revision of the service module
(createOrder, updateOrder, deleteOrder, getFinancialValues), the pure
total calculations of OrderList.tsx, the grand totals of OrderList.tsx,
the line-merging of NewOrderForm's handleSubmit, and the order filter of
OrderList.tsx.  Prices and cash figures are modelled as exact rationals
(the spec treats all money as finite decimals); product stock levels are
integers and line-item quantities natural numbers, mirroring the
validated integer inputs of the forms.
-/

namespace Imaginart

/-- Order status values of the later schema (src/types/index.ts). -/
inductive Status where
  | pendente
  | iniciada
  | concluida
  | falta_pagamento
deriving DecidableEq, Repr

/-- A catalog product row: products(id, name, price, quantity, max_quantity). -/
structure Product where
  id : String
  name : String
  price : ℚ
  quantity : Int
  max_quantity : Int
deriving DecidableEq, Repr

/-- An order line item as surfaced by getOrders: order_products rows mapped to
productId/quantity/completed (a null completed column reads as false). -/
structure OrderProduct where
  productId : String
  quantity : Nat
  completed : Bool
deriving DecidableEq, Repr

/-- An order together with its line items (src/types/index.ts). -/
structure Order where
  id : String
  name : String
  description : String
  status : Status
  products : List OrderProduct
  completed_at : String := ""
deriving DecidableEq, Repr

/-- The database state the data-access layer manipulates: the products table
and the orders joined with their order_products rows. -/
structure DB where
  products : List Product
  orders : List Order
deriving DecidableEq, Repr

/-- The store update products.update({quantity}).eq("id", pid): every product
row whose id matches gets the new quantity. -/
def setQuantity (ps : List Product) (pid : String) (q : Int) : List Product :=
  ps.map (fun p => if p.id == pid then { p with quantity := q } else p)

/-- One iteration of createOrder's loop (also updateOrder's new-products loop):
fetch the product; if present, write back max(0, quantity - item quantity);
if absent, do nothing. -/
def applyCreateItem (ps : List Product) (it : OrderProduct) : List Product :=
  match ps.find? (fun p => p.id == it.productId) with
  | some p => setQuantity ps it.productId (max 0 (p.quantity - (it.quantity : Int)))
  | none => ps

/-- One iteration of the restore loops of updateOrder and deleteOrder:
fetch the product; if present, write back min(max_quantity, quantity + item
quantity); if absent, do nothing. -/
def applyRestoreItem (ps : List Product) (it : OrderProduct) : List Product :=
  match ps.find? (fun p => p.id == it.productId) with
  | some p =>
      setQuantity ps it.productId (min p.max_quantity (p.quantity + (it.quantity : Int)))
  | none => ps

/-- The restore loop over an order's stored line items. -/
def restoreLoop (ps : List Product) (items : List OrderProduct) : List Product :=
  items.foldl applyRestoreItem ps

/-- The createOrder loop: sequentially decrement each referenced product
(floored at 0) and insert an order_products row for each item whose product
exists; the inserted row carries no completed flag, so it reads back false. -/
def createLoop (ps : List Product) : List OrderProduct → List Product × List OrderProduct
  | [] => (ps, [])
  | it :: rest =>
    match ps.find? (fun p => p.id == it.productId) with
    | some p =>
        let ps1 := setQuantity ps it.productId (max 0 (p.quantity - (it.quantity : Int)))
        let r := createLoop ps1 rest
        (r.1, ⟨it.productId, it.quantity, false⟩ :: r.2)
    | none => createLoop ps rest

/-- Input to createOrder: Omit of Order minus id (the store assigns the id). -/
structure NewOrder where
  name : String
  description : String
  status : Status
  products : List OrderProduct
deriving DecidableEq, Repr

/-- createOrder of the inventory-adjusting service revision: insert the order
row, then run the decrement/insert loop over the requested line items. -/
def createOrder (db : DB) (newId : String) (o : NewOrder) : DB :=
  let r := createLoop db.products o.products
  { products := r.1
    orders := db.orders ++
      [{ id := newId, name := o.name, description := o.description,
         status := o.status, products := r.2 }] }

/-- A Partial of Order as supplied to updateOrder: absent fields are dropped
from the store update payload, so they leave the stored row unchanged. -/
structure OrderPatch where
  name : Option String := none
  description : Option String := none
  status : Option Status := none
  products : Option (List OrderProduct) := none
deriving DecidableEq, Repr

/-- updateOrder of the inventory-adjusting service revision: fetch the
original order; if found and its previous status is not concluida, restore
every stored line item's quantity (capped at max_quantity); update the order
row with the supplied fields; then, only when the patch carries a products
list, delete the old order_products rows and run the decrement/insert loop
for the new items.  When the order row is missing, the fetch yields null, the
restore is skipped, and the subsequent single-row update throws, leaving the
state unchanged. -/
def updateOrder (db : DB) (id : String) (patch : OrderPatch) : DB :=
  match db.orders.find? (fun o => o.id == id) with
  | none => db
  | some orig =>
    let ps1 := if orig.status = Status.concluida then db.products
               else restoreLoop db.products orig.products
    let orders1 := db.orders.map (fun o =>
      if o.id == id then
        { o with name := patch.name.getD o.name,
                 description := patch.description.getD o.description,
                 status := patch.status.getD o.status }
      else o)
    match patch.products with
    | none => { products := ps1, orders := orders1 }
    | some newItems =>
      let r := createLoop ps1 newItems
      { products := r.1
        orders := orders1.map (fun o => if o.id == id then { o with products := r.2 } else o) }

/-- deleteOrder of the inventory-adjusting service revision: fetch the order;
if found and not concluida, restore every line item's quantity (capped at
max_quantity); then delete the order (its order_products rows cascade). -/
def deleteOrder (db : DB) (id : String) : DB :=
  let ps :=
    match db.orders.find? (fun o => o.id == id) with
    | some o => if o.status = Status.concluida then db.products
                else restoreLoop db.products o.products
    | none => db.products
  { products := ps, orders := db.orders.filter (fun o => !(o.id == id)) }

/-- One order-mutating user action against the data-access layer. -/
inductive Op where
  | create (newId : String) (o : NewOrder)
  | update (id : String) (patch : OrderPatch)
  | delete (id : String)
deriving Repr

/-- Apply one operation to the database state. -/
def applyOp (db : DB) : Op → DB
  | Op.create newId o => createOrder db newId o
  | Op.update id patch => updateOrder db id patch
  | Op.delete id => deleteOrder db id

/-- Apply a finite sequence of operations. -/
def applyOps (db : DB) (ops : List Op) : DB :=
  ops.foldl applyOp db

/-- The quantity of the (first) product row with the given id, if any. -/
def quantityOf (db : DB) (pid : String) : Option Int :=
  (db.products.find? (fun p => p.id == pid)).map Product.quantity

/-! OrderList.tsx: the pure total calculations over an order and the product
list, and the grand totals shown in the summary card. -/

/-- calculateOrderTotal of OrderList.tsx: reduce over the order's line items,
adding price times quantity when the referenced product exists and skipping
the item otherwise. -/
def calculateOrderTotal (products : List Product) (order : Order) : ℚ :=
  order.products.foldl (fun total op =>
    match products.find? (fun p => p.id == op.productId) with
    | none => total
    | some p => total + p.price * (op.quantity : ℚ)) 0

/-- calculatePaidTotal of OrderList.tsx: the full order total once the order
is concluida, otherwise the reduce that also skips items whose completed flag
is false. -/
def calculatePaidTotal (products : List Product) (order : Order) : ℚ :=
  if order.status = Status.concluida then calculateOrderTotal products order
  else
    order.products.foldl (fun total op =>
      match products.find? (fun p => p.id == op.productId) with
      | none => total
      | some p => if op.completed then total + p.price * (op.quantity : ℚ) else total) 0

/-- calculateRemainingTotal of OrderList.tsx: total minus paid. -/
def calculateRemainingTotal (products : List Product) (order : Order) : ℚ :=
  calculateOrderTotal products order - calculatePaidTotal products order

/-- The financial_values row of the service module (id is store-assigned). -/
structure FinancialValues where
  id : Option String := none
  banco : ℚ
  casa : ℚ
deriving DecidableEq, Repr

/-- grandTotal of OrderList.tsx: the sum of calculateOrderTotal over every
order in the list handed to the component, plus the banco and casa figures. -/
def grandTotal (products : List Product) (orders : List Order) (fv : FinancialValues) : ℚ :=
  orders.foldl (fun sum o => sum + calculateOrderTotal products o) 0 + fv.banco + fv.casa

/-- grandPaidTotal of OrderList.tsx: the sum of calculatePaidTotal over every
order. -/
def grandPaidTotal (products : List Product) (orders : List Order) : ℚ :=
  orders.foldl (fun sum o => sum + calculatePaidTotal products o) 0

/-- grandRemainingTotal of OrderList.tsx: the sum of calculateRemainingTotal
over every order. -/
def grandRemainingTotal (products : List Product) (orders : List Order) : ℚ :=
  orders.foldl (fun sum o => sum + calculateRemainingTotal products o) 0

/-- Follows the spec's words (section 4.1, used by claim C5): the sum of
remainingTotal across all non-archived (non-concluida) orders, plus the two
manual financial figures. -/
def specGrandTotal (products : List Product) (orders : List Order) (fv : FinancialValues) : ℚ :=
  ((orders.filter (fun o => !decide (o.status = Status.concluida))).map
    (calculateRemainingTotal products)).sum + fv.banco + fv.casa

/-- filteredOrders of OrderList.tsx: keep exactly the concluida orders when
showCompleted is set, exactly the non-concluida orders otherwise; the
component renders this list as is. -/
def filteredOrders (orders : List Order) (showCompleted : Bool) : List Order :=
  orders.filter (fun o =>
    if showCompleted then decide (o.status = Status.concluida)
    else !decide (o.status = Status.concluida))

/-! NewOrderForm.tsx handleSubmit: merging of draft lines before submission. -/

/-- A draft (product reference, quantity) pair accumulated by the order
editor. -/
structure DraftLine where
  productId : String
  quantity : Nat
deriving DecidableEq, Repr

/-- The in-place mutation existingProduct.quantity += current.quantity: add
the incoming quantity to the first accumulator entry with the same product. -/
def addTo : List DraftLine → DraftLine → List DraftLine
  | [], _ => []
  | p :: ps, cur =>
      if p.productId == cur.productId then
        { p with quantity := p.quantity + cur.quantity } :: ps
      else p :: addTo ps cur

/-- The reduce of handleSubmit building combinedProducts: fold over the draft
lines; a line whose product already has an accumulator entry is folded into
that entry, otherwise it is appended. -/
def combineProducts (acc : List DraftLine) : List DraftLine → List DraftLine
  | [] => acc
  | cur :: rest =>
    match acc.find? (fun p => p.productId == cur.productId) with
    | some _ => combineProducts (addTo acc cur) rest
    | none => combineProducts (acc ++ [cur]) rest

/-- The combinedProducts value submitted by handleSubmit. -/
def combinedProducts (draft : List DraftLine) : List DraftLine :=
  combineProducts [] draft

/-- The total quantity a draft (or merged) list carries for one product. -/
def sumQty (l : List DraftLine) (pid : String) : Nat :=
  ((l.filter (fun p => p.productId == pid)).map DraftLine.quantity).sum

/-! getFinancialValues of the service module. -/

/-- An error surfaced by the store client; only its code is inspected. -/
structure DbError where
  code : String
deriving DecidableEq, Repr

/-- createFinancialValues: insert the given values as a new row and return
them; the table gains exactly that one record. -/
def createFinancialValues (table : List FinancialValues) (values : FinancialValues) :
    List FinancialValues × FinancialValues :=
  (table ++ [values], values)

/-- getFinancialValues: on a successful single-row fetch return the row; on
the PGRST116 "no record found" sentinel create and return zeroed defaults;
propagate every other error.  The result carries the financial_values table
after the call together with the returned record. -/
def getFinancialValues (fetch : Except DbError FinancialValues)
    (table : List FinancialValues) :
    Except DbError (List FinancialValues × FinancialValues) :=
  match fetch with
  | Except.ok data => Except.ok (table, data)
  | Except.error e =>
      if e.code = "PGRST116" then
        Except.ok (createFinancialValues table { banco := 0, casa := 0 })
      else Except.error e

/-! Helper lemmas: foldl accumulations as list sums. -/

/-- The price contribution of one line item: price times quantity when the
referenced product exists, 0 otherwise. -/
def itemTotal (products : List Product) (op : OrderProduct) : ℚ :=
  match products.find? (fun p => p.id == op.productId) with
  | none => 0
  | some p => p.price * (op.quantity : ℚ)

lemma foldl_add_eq {α : Type} (f : ℚ → α → ℚ) (g : α → ℚ)
    (hf : ∀ a x, f a x = a + g x) :
    ∀ (l : List α) (a : ℚ), l.foldl f a = a + (l.map g).sum := by
  intro l
  induction l with
  | nil => intro a; simp
  | cons x xs ih =>
      intro a
      simp only [List.foldl_cons, List.map_cons, List.sum_cons]
      rw [ih, hf, add_assoc]

lemma calculateOrderTotal_eq_sum (products : List Product) (order : Order) :
    calculateOrderTotal products order = (order.products.map (itemTotal products)).sum := by
  unfold calculateOrderTotal
  rw [foldl_add_eq _ (itemTotal products), zero_add]
  intro a x
  unfold itemTotal
  cases h : products.find? (fun p => p.id == x.productId) <;> simp

lemma calculatePaidTotal_eq_sum (products : List Product) (order : Order)
    (h : ¬ order.status = Status.concluida) :
    calculatePaidTotal products order =
      (order.products.map (fun op => if op.completed then itemTotal products op else 0)).sum := by
  unfold calculatePaidTotal
  rw [if_neg h, foldl_add_eq _ (fun op => if op.completed then itemTotal products op else 0),
    zero_add]
  intro a x
  unfold itemTotal
  cases hf : products.find? (fun p => p.id == x.productId) <;> cases hc : x.completed <;> simp

lemma sum_ite_completed (products : List Product) (items : List OrderProduct) :
    (items.map (fun op => if op.completed then itemTotal products op else 0)).sum =
      ((items.filter (fun op => op.completed)).map (itemTotal products)).sum := by
  induction items with
  | nil => simp
  | cons x xs ih =>
      cases hc : x.completed <;> simp [List.filter_cons, hc, ih]

lemma total_eq_paid_add_remaining (products : List Product) (order : Order) :
    calculateOrderTotal products order =
      calculatePaidTotal products order + calculateRemainingTotal products order := by
  unfold calculateRemainingTotal
  ring

lemma remaining_of_concluida (products : List Product) (order : Order)
    (h : order.status = Status.concluida) :
    calculateRemainingTotal products order = 0 := by
  unfold calculateRemainingTotal calculatePaidTotal
  rw [if_pos h]
  ring

/-- C6.  For every order, the displayed total splits exactly into the paid
part and the remaining part, with no rounding anywhere in the calculation:
calculateOrderTotal = calculatePaidTotal + calculateRemainingTotal over exact
rationals. -/
theorem orderTotal_eq_paid_add_remaining (products : List Product) (order : Order) :
    calculateOrderTotal products order =
      calculatePaidTotal products order + calculateRemainingTotal products order := by
  unfold calculateRemainingTotal
  ring

/-! The concrete scenario of claim C3. -/

/-- The scenario product P: price 10.00, quantity 5, max 5. -/
def scenarioP : Product :=
  { id := "p1", name := "P", price := 10, quantity := 5, max_quantity := 5 }

/-- The scenario database: just P, no orders. -/
def scenarioDb0 : DB := { products := [scenarioP], orders := [] }

/-- After creating order O with a single line of 3 times P. -/
def scenarioDb1 : DB :=
  createOrder scenarioDb0 "o1"
    { name := "O", description := "", status := Status.pendente,
      products := [⟨"p1", 3, false⟩] }

/-- After updating O (still pendente) to a single line of 5 times P, as the
order editor submits it. -/
def scenarioDb2 : DB :=
  updateOrder scenarioDb1 "o1"
    { name := some "O", description := some "", status := some Status.pendente,
      products := some [⟨"p1", 5, false⟩] }

/-- After deleting O while its status is pendente. -/
def scenarioDb3 : DB := deleteOrder scenarioDb2 "o1"

/-- C3.  The worked scenario: creating 3 times P from stock 5 leaves 2;
updating the pendente order to 5 times P restores to 5 and decrements
(floored) to 0; deleting the pendente order restores min(5, 0+5) = 5. -/
theorem scenario_create_update_delete :
    quantityOf scenarioDb1 "p1" = some 2 ∧
    quantityOf scenarioDb2 "p1" = some 0 ∧
    quantityOf scenarioDb3 "p1" = some 5 := by
  refine ⟨?_, ?_, ?_⟩ <;> decide

/-! Claim C9: the financial-values fetch. -/

/-- C9.  A fetch failing with the PGRST116 "no record found" sentinel does
not fail the operation: exactly one record with banco = 0 and casa = 0 is
created and those zeros are returned; a fetch failing with any other code
propagates that error unchanged. -/
theorem financialValues_not_found_lazy_create
    (table : List FinancialValues) (e : DbError) :
    (e.code = "PGRST116" →
      getFinancialValues (Except.error e) table =
        Except.ok (table ++ [{ banco := 0, casa := 0 }], { banco := 0, casa := 0 })) ∧
    (e.code ≠ "PGRST116" →
      getFinancialValues (Except.error e) table = Except.error e) := by
  constructor
  · intro h
    simp [getFinancialValues, createFinancialValues, h]
  · intro h
    simp [getFinancialValues, h]

/-- Witness for C9 at a concrete empty table: the sentinel creates the zeroed
record, and a distinct error code is propagated. -/
theorem financialValues_not_found_lazy_create_witness :
    (getFinancialValues (Except.error { code := "PGRST116" }) [] =
      Except.ok ([{ banco := 0, casa := 0 }], { banco := 0, casa := 0 })) ∧
    (getFinancialValues (Except.error { code := "500" }) [] =
      Except.error { code := "500" }) := by
  constructor
  · exact (financialValues_not_found_lazy_create [] { code := "PGRST116" }).1 rfl
  · exact (financialValues_not_found_lazy_create [] { code := "500" }).2 (by decide)

/-! Claim C8: merging of duplicate draft lines on submission. -/

lemma addTo_map_productId (acc : List DraftLine) (cur : DraftLine) :
    (addTo acc cur).map DraftLine.productId = acc.map DraftLine.productId := by
  induction acc with
  | nil => rfl
  | cons p ps ih =>
      unfold addTo
      by_cases h : p.productId == cur.productId <;> simp [h, ih]

lemma sumQty_cons (p : DraftLine) (l : List DraftLine) (pid : String) :
    sumQty (p :: l) pid =
      (if p.productId == pid then p.quantity else 0) + sumQty l pid := by
  unfold sumQty
  by_cases h : p.productId == pid <;> simp [List.filter_cons, h]

lemma sumQty_append (l1 l2 : List DraftLine) (pid : String) :
    sumQty (l1 ++ l2) pid = sumQty l1 pid + sumQty l2 pid := by
  unfold sumQty
  simp [List.filter_append]

lemma sumQty_addTo (acc : List DraftLine) (cur : DraftLine) (pid : String)
    (h : (acc.find? (fun p => p.productId == cur.productId)).isSome) :
    sumQty (addTo acc cur) pid =
      sumQty acc pid + (if cur.productId == pid then cur.quantity else 0) := by
  induction acc with
  | nil => simp [List.find?] at h
  | cons p ps ih =>
      rw [List.find?_cons] at h
      unfold addTo
      by_cases hpc : p.productId == cur.productId
      · rw [if_pos hpc, sumQty_cons, sumQty_cons]
        have hpc' : p.productId = cur.productId := by
          simpa using hpc
        by_cases hpp : p.productId == pid
        · have hcp : cur.productId == pid := by
            rw [← hpc']; exact hpp
          simp only [hpp, if_pos, hcp]
          omega
        · have hcp : ¬ (cur.productId == pid) := by
            rw [← hpc']; exact hpp
          simp [hpp, hcp]
      · rw [if_neg hpc, sumQty_cons, sumQty_cons]
        simp only [hpc] at h
        rw [ih (by simpa using h)]
        omega

lemma combineProducts_spec (rest : List DraftLine) :
    ∀ acc : List DraftLine, (acc.map DraftLine.productId).Nodup →
      ((combineProducts acc rest).map DraftLine.productId).Nodup ∧
      ∀ pid, sumQty (combineProducts acc rest) pid = sumQty acc pid + sumQty rest pid := by
  induction rest with
  | nil =>
      intro acc hnd
      refine ⟨hnd, fun pid => ?_⟩
      simp [combineProducts, sumQty]
  | cons cur rest ih =>
      intro acc hnd
      unfold combineProducts
      cases hf : acc.find? (fun p => p.productId == cur.productId) with
      | some q =>
          have hnd' : ((addTo acc cur).map DraftLine.productId).Nodup := by
            rw [addTo_map_productId]; exact hnd
          obtain ⟨h1, h2⟩ := ih (addTo acc cur) hnd'
          refine ⟨h1, fun pid => ?_⟩
          rw [h2 pid, sumQty_addTo acc cur pid (by simp [hf]), sumQty_cons]
          omega
      | none =>
          have hmem : cur.productId ∉ acc.map DraftLine.productId := by
            intro hc
            obtain ⟨p, hp, hpid⟩ := List.mem_map.mp hc
            have := List.find?_eq_none.mp hf p hp
            simp [hpid] at this
          have hnd' : ((acc ++ [cur]).map DraftLine.productId).Nodup := by
            simp only [List.map_append, List.map_cons, List.map_nil]
            rw [List.nodup_append]
            exact ⟨hnd, List.nodup_singleton _, by
              intro x hx hx'
              simp at hx'
              subst hx'
              exact hmem hx⟩
          obtain ⟨h1, h2⟩ := ih (acc ++ [cur]) hnd'
          refine ⟨h1, fun pid => ?_⟩
          rw [h2 pid, sumQty_append, sumQty_cons]
          unfold sumQty
          by_cases hcp : cur.productId == pid
          · simp [List.filter_cons, hcp]
            omega
          · simp [List.filter_cons, hcp]

/-- C8.  The line items handed to the persistence layer by the order editor
carry no duplicate products: combinedProducts has pairwise distinct product
ids, and for every product id its merged quantity equals the sum of all
draft lines for that product (so draft lines of 2 and 3 for one product
submit as a single line of 5). -/
theorem combinedProducts_merges_duplicates (draft : List DraftLine) :
    ((combinedProducts draft).map DraftLine.productId).Nodup ∧
    ∀ pid, sumQty (combinedProducts draft) pid = sumQty draft pid := by
  obtain ⟨h1, h2⟩ := combineProducts_spec draft [] (by simp)
  refine ⟨h1, fun pid => ?_⟩
  rw [combinedProducts, h2 pid]
  simp [sumQty]

/-! Claim C7: characterization of calculatePaidTotal. -/

/-- C7.  For every order, calculatePaidTotal equals the full order total when
the status is concluida, and otherwise the sum of price times quantity over
exactly the line items whose completed flag is true, items with a missing
referenced product contributing 0. -/
theorem paidTotal_characterization (products : List Product) (order : Order) :
    calculatePaidTotal products order =
      if order.status = Status.concluida then calculateOrderTotal products order
      else ((order.products.filter (fun op => op.completed)).map (itemTotal products)).sum := by
  by_cases h : order.status = Status.concluida
  · rw [if_pos h]
    unfold calculatePaidTotal
    rw [if_pos h]
  · rw [if_neg h, calculatePaidTotal_eq_sum products order h, sum_ite_completed]

/-! Claim C5: the grand total of the order list summary. -/

lemma sum_total_split (products : List Product) (orders : List Order) :
    (orders.map (calculateOrderTotal products)).sum =
      ((orders.filter (fun o => !decide (o.status = Status.concluida))).map
        (calculateRemainingTotal products)).sum +
      (orders.map (calculatePaidTotal products)).sum := by
  induction orders with
  | nil => simp
  | cons o os ih =>
      simp only [List.map_cons, List.sum_cons, List.filter_cons]
      by_cases h : o.status = Status.concluida
      · rw [if_neg (by simp [h]), total_eq_paid_add_remaining,
          remaining_of_concluida products o h, ih]
        ring
      · rw [if_pos (by simp [h]), List.map_cons, List.sum_cons,
          total_eq_paid_add_remaining products o, ih]
        ring

/-- C5 amended.  The grand total displayed by the order list sums the full
calculateOrderTotal of every order (concluida included) plus banco and casa;
equivalently it equals the spec's formula — remainingTotal summed over
non-concluida orders plus the two manual figures — PLUS the paid totals of
all orders, which the spec's formula omits. -/
theorem grandTotal_eq_spec_plus_paid (products : List Product) (orders : List Order)
    (fv : FinancialValues) :
    grandTotal products orders fv =
      specGrandTotal products orders fv + grandPaidTotal products orders := by
  unfold grandTotal specGrandTotal grandPaidTotal
  rw [foldl_add_eq _ (calculateOrderTotal products) (fun a x => rfl), zero_add,
    foldl_add_eq _ (calculatePaidTotal products) (fun a x => rfl), zero_add,
    sum_total_split]
  ring

/-- A concluida order of 3 times P, used to refute C5 as stated. -/
def cexOrder : Order :=
  { id := "o1", name := "O", description := "", status := Status.concluida,
    products := [⟨"p1", 3, false⟩] }

/-- Zeroed manual financial figures. -/
def cexFv : FinancialValues := { banco := 0, casa := 0 }

/-- Counterexample to C5 as stated: with a single concluida order worth 30
and zero banco/casa, the displayed grand total is 30 while the sum of
remainingTotal over non-concluida orders plus banco and casa is 0. -/
theorem grandTotal_counterexample :
    cexOrder.status = Status.concluida ∧
    grandTotal [scenarioP] [cexOrder] cexFv = 30 ∧
    specGrandTotal [scenarioP] [cexOrder] cexFv = 0 := by
  refine ⟨rfl, ?_, ?_⟩
  · simp [grandTotal, calculateOrderTotal, scenarioP, cexOrder, cexFv, List.find?]
    norm_num
  · simp [specGrandTotal, cexOrder, cexFv]

/-! Claim C10: the order list partition and its (absent) sorting. -/

/-- Case-insensitive name comparison (lexicographic over lower-cased
characters): on the ASCII names used below it coincides with every
locale-aware, case-insensitive collation, Portuguese included. -/
def nameLeCI (a b : Order) : Prop :=
  a.name.data.map Char.toLower ≤ b.name.data.map Char.toLower

/-- C10 amended.  The rendered collection is exactly one partition — the
concluida orders when showCompleted is set, the non-concluida orders
otherwise, never both — and it preserves the input list's relative order
(the component applies no sorting). -/
theorem filteredOrders_partition (orders : List Order) (showCompleted : Bool) :
    (filteredOrders orders showCompleted).Sublist orders ∧
    ∀ o, o ∈ filteredOrders orders showCompleted ↔
      o ∈ orders ∧ (if showCompleted then o.status = Status.concluida
                    else o.status ≠ Status.concluida) := by
  refine ⟨List.filter_sublist _, fun o => ?_⟩
  cases showCompleted <;> simp [filteredOrders, List.mem_filter]

/-- A pendente order named "B". -/
def cexOrderB : Order :=
  { id := "b", name := "B", description := "", status := Status.pendente, products := [] }

/-- A pendente order named "a". -/
def cexOrderA : Order :=
  { id := "a", name := "a", description := "", status := Status.pendente, products := [] }

/-- Counterexample to C10 as stated: with active orders named "B" then "a",
the rendered list keeps the input order ["B", "a"], which is not sorted
under case-insensitive name comparison ("a" precedes "b" in any
case-insensitive collation). -/
theorem filteredOrders_not_sorted :
    filteredOrders [cexOrderB, cexOrderA] false = [cexOrderB, cexOrderA] ∧
    ¬ List.Pairwise nameLeCI (filteredOrders [cexOrderB, cexOrderA] false) := by
  have h : filteredOrders [cexOrderB, cexOrderA] false = [cexOrderB, cexOrderA] := by
    decide
  refine ⟨h, ?_⟩
  rw [h]
  intro hp
  have hle : nameLeCI cexOrderB cexOrderA := by
    rcases hp with _ | ⟨hfst, _⟩
    exact hfst cexOrderA (by simp)
  revert hle
  unfold nameLeCI cexOrderB cexOrderA
  decide

/-! Claim C2: mutations of concluida orders. -/

/-- The database holding product P (stock 5 of max 5) and the concluida
order of 3 times P. -/
def cexDbC : DB := { products := [scenarioP], orders := [cexOrder] }

/-- Counterexample to C2 as stated: updating the concluida order o1 with a
patch that supplies line items (3 times p1 again) skips the restore but
still runs the decrement, so p1's quantity drops from 5 to 2. -/
theorem updateOrder_concluida_counterexample :
    cexOrder.status = Status.concluida ∧
    quantityOf cexDbC "p1" = some 5 ∧
    quantityOf (updateOrder cexDbC "o1"
      { products := some [⟨"p1", 3, false⟩] }) "p1" = some 2 := by
  refine ⟨rfl, ?_, ?_⟩
  · decide
  · decide

/-- C2 amended.  Deleting a concluida order never changes any product's
quantity, and updating a concluida order changes no quantity as long as the
patch carries no products field; an update that does supply line items still
applies the decrement step to the new items. -/
theorem concluida_order_frame (db : DB) (id : String) (patch : OrderPatch) (o : Order)
    (hfind : db.orders.find? (fun x => x.id == id) = some o)
    (hst : o.status = Status.concluida) :
    (deleteOrder db id).products = db.products ∧
    (patch.products = none → (updateOrder db id patch).products = db.products) := by
  constructor
  · simp [deleteOrder, hfind, hst]
  · intro hp
    simp [updateOrder, hfind, hst, hp]

/-- Witness for C2 amended at the concrete concluida order: deletion and a
status-only update both leave the product table untouched. -/
theorem concluida_order_frame_witness :
    (deleteOrder cexDbC "o1").products = cexDbC.products ∧
    (({ status := some Status.pendente : OrderPatch }).products = none →
      (updateOrder cexDbC "o1" { status := some Status.pendente }).products =
        cexDbC.products) :=
  concluida_order_frame cexDbC "o1" { status := some Status.pendente } cexOrder
    (by decide) rfl

/-! Claim C4: a products-free update restores stock and keeps the stored
line items. -/

lemma find?_map_of_id {α : Type} (f : α → α) (p : α → Bool)
    (hf : ∀ x, p (f x) = p x) (l : List α) :
    (l.map f).find? p = (l.find? p).map f := by
  induction l with
  | nil => rfl
  | cons x xs ih =>
      by_cases hx : p x
      · rw [List.map_cons, List.find?_cons_of_pos _ (by rw [hf]; exact hx),
          List.find?_cons_of_pos _ hx, Option.map_some']
      · rw [List.map_cons, List.find?_cons_of_neg _ (by rw [hf]; simpa using hx),
          List.find?_cons_of_neg _ (by simpa using hx), ih]

lemma find?_setQuantity (ps : List Product) (pid : String) (q : Int) (tgt : String) :
    (setQuantity ps pid q).find? (fun p => p.id == tgt) =
      (ps.find? (fun p => p.id == tgt)).map
        (fun p => if p.id == pid then { p with quantity := q } else p) := by
  unfold setQuantity
  apply find?_map_of_id
  intro x
  by_cases h : x.id == pid <;> simp [h]

lemma applyRestoreItem_found (ps : List Product) (it : OrderProduct) (p : Product)
    (hf : ps.find? (fun x => x.id == it.productId) = some p) :
    (applyRestoreItem ps it).find? (fun x => x.id == it.productId) =
      some { p with quantity := min p.max_quantity (p.quantity + (it.quantity : Int)) } := by
  have hpid := List.find?_some hf
  unfold applyRestoreItem
  rw [hf, find?_setQuantity, hf, Option.map_some']
  simp only at hpid
  simp [hpid]

lemma applyRestoreItem_other (ps : List Product) (it : OrderProduct) (tgt : String)
    (hne : tgt ≠ it.productId) :
    (applyRestoreItem ps it).find? (fun x => x.id == tgt) =
      ps.find? (fun x => x.id == tgt) := by
  unfold applyRestoreItem
  cases hf : ps.find? (fun x => x.id == it.productId) with
  | none => rfl
  | some p =>
      rw [find?_setQuantity]
      cases hg : ps.find? (fun x => x.id == tgt) with
      | none => rfl
      | some x =>
          have hx : x.id = tgt := by simpa using List.find?_some hg
          have hxne : ¬ (x.id == it.productId) = true := by
            simp [hx]
            exact hne
          rw [Option.map_some']
          simp [hxne]

lemma restoreLoop_cons (ps : List Product) (it : OrderProduct) (rest : List OrderProduct) :
    restoreLoop ps (it :: rest) = restoreLoop (applyRestoreItem ps it) rest := rfl

lemma restoreLoop_other (items : List OrderProduct) :
    ∀ (ps : List Product) (tgt : String), tgt ∉ items.map OrderProduct.productId →
      (restoreLoop ps items).find? (fun x => x.id == tgt) =
        ps.find? (fun x => x.id == tgt) := by
  induction items with
  | nil => intro ps tgt _; rfl
  | cons it rest ih =>
      intro ps tgt h
      simp only [List.map_cons, List.mem_cons] at h
      push_neg at h
      rw [restoreLoop_cons, ih (applyRestoreItem ps it) tgt h.2,
        applyRestoreItem_other ps it tgt h.1]

lemma restoreLoop_found (items : List OrderProduct)
    (hnd : (items.map OrderProduct.productId).Nodup) :
    ∀ ps : List Product, ∀ it ∈ items, ∀ p : Product,
      ps.find? (fun x => x.id == it.productId) = some p →
      (restoreLoop ps items).find? (fun x => x.id == it.productId) =
        some { p with quantity := min p.max_quantity (p.quantity + (it.quantity : Int)) } := by
  induction items with
  | nil => intro ps it hmem; exact absurd hmem (List.not_mem_nil it)
  | cons it0 rest ih =>
      intro ps it hmem p hf
      rw [List.map_cons, List.nodup_cons] at hnd
      rcases List.mem_cons.mp hmem with heq | hmem'
      · subst heq
        rw [restoreLoop_cons, restoreLoop_other rest (applyRestoreItem ps it) it.productId hnd.1,
          applyRestoreItem_found ps it p hf]
      · have hin : it.productId ∈ rest.map OrderProduct.productId :=
          List.mem_map.mpr ⟨it, hmem', rfl⟩
        have hne : it.productId ≠ it0.productId := by
          intro hc
          exact hnd.1 (hc ▸ hin)
        rw [restoreLoop_cons]
        exact ih hnd.2 (applyRestoreItem ps it0) it hmem' p
          (by rw [applyRestoreItem_other ps it0 it.productId hne]; exact hf)

lemma updateOrder_no_products (db : DB) (id : String) (patch : OrderPatch) (o : Order)
    (hfind : db.orders.find? (fun x => x.id == id) = some o)
    (hst : o.status ≠ Status.concluida)
    (hp : patch.products = none) :
    updateOrder db id patch =
      { products := restoreLoop db.products o.products,
        orders := db.orders.map (fun x =>
          if x.id == id then
            { x with name := patch.name.getD x.name,
                     description := patch.description.getD x.description,
                     status := patch.status.getD x.status }
          else x) } := by
  unfold updateOrder
  rw [hfind]
  simp only [hp, if_neg hst]

/-- C4.  For an update whose patch omits the products field, applied to an
order whose previous status is not concluida: the order's row takes the
patched name, description and status while its stored line items stay
exactly as they were, and every product referenced by those items (order
items referencing pairwise distinct products) has its quantity raised by the
item's quantity, capped at the product's max_quantity. -/
theorem statusOnly_update_restores_keeps_items
    (db : DB) (id : String) (patch : OrderPatch) (o : Order)
    (hfind : db.orders.find? (fun x => x.id == id) = some o)
    (hst : o.status ≠ Status.concluida)
    (hp : patch.products = none)
    (hnd : (o.products.map OrderProduct.productId).Nodup) :
    ((updateOrder db id patch).orders.find? (fun x => x.id == id) =
      some { o with name := patch.name.getD o.name,
                    description := patch.description.getD o.description,
                    status := patch.status.getD o.status }) ∧
    ∀ it ∈ o.products, ∀ p : Product,
      db.products.find? (fun x => x.id == it.productId) = some p →
      (updateOrder db id patch).products.find? (fun x => x.id == it.productId) =
        some { p with quantity := min p.max_quantity (p.quantity + (it.quantity : Int)) } := by
  rw [updateOrder_no_products db id patch o hfind hst hp]
  constructor
  · rw [find?_map_of_id _ _ (fun x => by by_cases h : x.id == id <;> simp [h]) db.orders,
      hfind, Option.map_some']
    have hid := List.find?_some hfind
    simp only at hid
    simp [hid]
  · intro it hmem p hf
    exact restoreLoop_found o.products hnd db.products it hmem p hf

/-- A pendente order of 3 times p1 against stock 2 of max 5, to witness C4. -/
def c4Db : DB :=
  { products := [{ id := "p1", name := "P", price := 10, quantity := 2, max_quantity := 5 }],
    orders := [{ id := "o1", name := "O", description := "", status := Status.pendente,
                 products := [⟨"p1", 3, true⟩] }] }

/-- Witness for C4: the status-only transition of o1 to concluida keeps the
stored line item (with its completed flag) and restores p1 to min(5, 2+3). -/
theorem statusOnly_update_restores_keeps_items_witness :
    ((updateOrder c4Db "o1" { status := some Status.concluida }).orders.find?
        (fun x => x.id == "o1") =
      some { id := "o1", name := "O", description := "", status := Status.concluida,
             products := [⟨"p1", 3, true⟩] }) ∧
    ((updateOrder c4Db "o1" { status := some Status.concluida }).products.find?
        (fun x => x.id == "p1") =
      some { id := "p1", name := "P", price := 10, quantity := 5, max_quantity := 5 }) := by
  have h := statusOnly_update_restores_keeps_items c4Db "o1"
    { status := some Status.concluida }
    { id := "o1", name := "O", description := "", status := Status.pendente,
      products := [⟨"p1", 3, true⟩] }
    (by decide) (by decide) rfl (by decide)
  refine ⟨h.1, ?_⟩
  have h2 := h.2 ⟨"p1", 3, true⟩ (by simp)
    { id := "p1", name := "P", price := 10, quantity := 2, max_quantity := 5 } (by decide)
  simpa using h2

/-! Claim C1: the inventory bounds invariant. -/

/-- Every product's quantity lies between 0 and its max_quantity. -/
def InvQuantity (ps : List Product) : Prop :=
  ∀ p ∈ ps, 0 ≤ p.quantity ∧ p.quantity ≤ p.max_quantity

/-- Product rows sharing an id share a max_quantity (trivially true of a
table whose id column is a primary key). -/
def SameIdSameMax (ps : List Product) : Prop :=
  ∀ p ∈ ps, ∀ q ∈ ps, p.id = q.id → p.max_quantity = q.max_quantity

/-- The id and max_quantity columns, which no order operation writes. -/
def idMaxKey (ps : List Product) : List (String × Int) :=
  ps.map (fun p => (p.id, p.max_quantity))

/-- Both halves of the C1 induction invariant. -/
def GoodProducts (ps : List Product) : Prop :=
  InvQuantity ps ∧ SameIdSameMax ps

lemma idMaxKey_setQuantity (ps : List Product) (pid : String) (q : Int) :
    idMaxKey (setQuantity ps pid q) = idMaxKey ps := by
  unfold idMaxKey setQuantity
  rw [List.map_map]
  apply List.map_congr_left
  intro x _
  simp only [Function.comp]
  split <;> rfl

lemma idMaxKey_applyCreateItem (ps : List Product) (it : OrderProduct) :
    idMaxKey (applyCreateItem ps it) = idMaxKey ps := by
  unfold applyCreateItem
  cases hf : ps.find? (fun p => p.id == it.productId) with
  | none => rfl
  | some p => exact idMaxKey_setQuantity ps it.productId _

lemma idMaxKey_applyRestoreItem (ps : List Product) (it : OrderProduct) :
    idMaxKey (applyRestoreItem ps it) = idMaxKey ps := by
  unfold applyRestoreItem
  cases hf : ps.find? (fun p => p.id == it.productId) with
  | none => rfl
  | some p => exact idMaxKey_setQuantity ps it.productId _

lemma sameMax_of_idMaxKey_eq {ps ps' : List Product}
    (h : idMaxKey ps' = idMaxKey ps) (hs : SameIdSameMax ps) : SameIdSameMax ps' := by
  intro p hp q hq hid
  have hp' : (p.id, p.max_quantity) ∈ idMaxKey ps := by
    rw [← h]
    exact List.mem_map.mpr ⟨p, hp, rfl⟩
  have hq' : (q.id, q.max_quantity) ∈ idMaxKey ps := by
    rw [← h]
    exact List.mem_map.mpr ⟨q, hq, rfl⟩
  obtain ⟨p0, hp0, hpk⟩ := List.mem_map.mp hp'
  obtain ⟨q0, hq0, hqk⟩ := List.mem_map.mp hq'
  have hpk1 : p0.id = p.id := congrArg Prod.fst hpk
  have hpk2 : p0.max_quantity = p.max_quantity := congrArg Prod.snd hpk
  have hqk1 : q0.id = q.id := congrArg Prod.fst hqk
  have hqk2 : q0.max_quantity = q.max_quantity := congrArg Prod.snd hqk
  rw [← hpk2, ← hqk2]
  exact hs p0 hp0 q0 hq0 (by rw [hpk1, hqk1, hid])

lemma invQuantity_applyCreateItem (ps : List Product) (it : OrderProduct)
    (hinv : InvQuantity ps) (hs : SameIdSameMax ps) :
    InvQuantity (applyCreateItem ps it) := by
  unfold applyCreateItem
  cases hf : ps.find? (fun p => p.id == it.productId) with
  | none => exact hinv
  | some p0 =>
      have hp0mem : p0 ∈ ps := List.mem_of_find?_eq_some hf
      have hp0id := List.find?_some hf
      simp only at hp0id
      intro x hx
      unfold setQuantity at hx
      obtain ⟨y, hy, hxy⟩ := List.mem_map.mp hx
      by_cases h : y.id == it.productId
      · rw [if_pos h] at hxy
        obtain ⟨h1, h2⟩ := hinv p0 hp0mem
        have hmax : y.max_quantity = p0.max_quantity := by
          apply hs y hy p0 hp0mem
          rw [eq_of_beq h, eq_of_beq hp0id]
        subst hxy
        simp only
        constructor
        · omega
        · rw [hmax]
          omega
      · rw [if_neg h] at hxy
        subst hxy
        exact hinv y hy

lemma invQuantity_applyRestoreItem (ps : List Product) (it : OrderProduct)
    (hinv : InvQuantity ps) (hs : SameIdSameMax ps) :
    InvQuantity (applyRestoreItem ps it) := by
  unfold applyRestoreItem
  cases hf : ps.find? (fun p => p.id == it.productId) with
  | none => exact hinv
  | some p0 =>
      have hp0mem : p0 ∈ ps := List.mem_of_find?_eq_some hf
      have hp0id := List.find?_some hf
      simp only at hp0id
      intro x hx
      unfold setQuantity at hx
      obtain ⟨y, hy, hxy⟩ := List.mem_map.mp hx
      by_cases h : y.id == it.productId
      · rw [if_pos h] at hxy
        obtain ⟨h1, h2⟩ := hinv p0 hp0mem
        have hmax : y.max_quantity = p0.max_quantity := by
          apply hs y hy p0 hp0mem
          rw [eq_of_beq h, eq_of_beq hp0id]
        subst hxy
        simp only
        constructor
        · omega
        · rw [hmax]
          omega
      · rw [if_neg h] at hxy
        subst hxy
        exact hinv y hy

lemma good_applyCreateItem (ps : List Product) (it : OrderProduct)
    (h : GoodProducts ps) : GoodProducts (applyCreateItem ps it) :=
  ⟨invQuantity_applyCreateItem ps it h.1 h.2,
   sameMax_of_idMaxKey_eq (idMaxKey_applyCreateItem ps it) h.2⟩

lemma good_applyRestoreItem (ps : List Product) (it : OrderProduct)
    (h : GoodProducts ps) : GoodProducts (applyRestoreItem ps it) :=
  ⟨invQuantity_applyRestoreItem ps it h.1 h.2,
   sameMax_of_idMaxKey_eq (idMaxKey_applyRestoreItem ps it) h.2⟩

lemma good_foldl (f : List Product → OrderProduct → List Product)
    (hstep : ∀ ps it, GoodProducts ps → GoodProducts (f ps it)) :
    ∀ (items : List OrderProduct) (ps : List Product),
      GoodProducts ps → GoodProducts (items.foldl f ps) := by
  intro items
  induction items with
  | nil => intro ps h; exact h
  | cons it rest ih =>
      intro ps h
      rw [List.foldl_cons]
      exact ih (f ps it) (hstep ps it h)

lemma createLoop_fst (items : List OrderProduct) :
    ∀ ps : List Product, (createLoop ps items).1 = items.foldl applyCreateItem ps := by
  induction items with
  | nil => intro ps; rfl
  | cons it rest ih =>
      intro ps
      rw [List.foldl_cons]
      cases hf : ps.find? (fun p => p.id == it.productId) with
      | some p =>
          simp only [createLoop, hf]
          rw [ih]
          congr 1
          unfold applyCreateItem
          rw [hf]
      | none =>
          simp only [createLoop, hf]
          rw [ih]
          congr 1
          unfold applyCreateItem
          rw [hf]

lemma good_restoreLoop (ps : List Product) (items : List OrderProduct)
    (h : GoodProducts ps) : GoodProducts (restoreLoop ps items) :=
  good_foldl applyRestoreItem good_applyRestoreItem items ps h

lemma good_createLoop_fst (ps : List Product) (items : List OrderProduct)
    (h : GoodProducts ps) : GoodProducts (createLoop ps items).1 := by
  rw [createLoop_fst]
  exact good_foldl applyCreateItem good_applyCreateItem items ps h

lemma good_applyOp (db : DB) (op : Op) (h : GoodProducts db.products) :
    GoodProducts (applyOp db op).products := by
  cases op with
  | create newId o =>
      simp only [applyOp, createOrder]
      exact good_createLoop_fst db.products o.products h
  | update id patch =>
      simp only [applyOp]
      unfold updateOrder
      cases hfind : db.orders.find? (fun x => x.id == id) with
      | none => exact h
      | some orig =>
          have h1 : GoodProducts (if orig.status = Status.concluida then db.products
              else restoreLoop db.products orig.products) := by
            by_cases hst : orig.status = Status.concluida
            · rw [if_pos hst]; exact h
            · rw [if_neg hst]; exact good_restoreLoop db.products orig.products h
          cases hp : patch.products with
          | none => exact h1
          | some newItems => exact good_createLoop_fst _ newItems h1
  | delete id =>
      simp only [applyOp]
      unfold deleteOrder
      cases hfind : db.orders.find? (fun x => x.id == id) with
      | none => exact h
      | some o =>
          show GoodProducts (if o.status = Status.concluida then db.products
            else restoreLoop db.products o.products)
          by_cases hst : o.status = Status.concluida
          · rw [if_pos hst]
            exact h
          · rw [if_neg hst]
            exact good_restoreLoop db.products o.products h

lemma good_applyOps (ops : List Op) :
    ∀ db : DB, GoodProducts db.products → GoodProducts (applyOps db ops).products := by
  induction ops with
  | nil => intro db h; exact h
  | cons op rest ih =>
      intro db h
      unfold applyOps
      rw [List.foldl_cons]
      exact ih (applyOp db op) (good_applyOp db op h)

/-- C1.  Starting from a product table with primary-key ids in which every
quantity equals its max_quantity (as product create/update establishes, with
a validated non-negative quantity), any finite sequence of createOrder,
updateOrder and deleteOrder operations keeps every product's quantity
between 0 and its max_quantity: decrements floor at 0 and restores cap at
max_quantity. -/
theorem inventory_bounds_invariant (db : DB) (ops : List Op)
    (hids : (db.products.map Product.id).Nodup)
    (hinit : ∀ p ∈ db.products, 0 ≤ p.quantity ∧ p.quantity = p.max_quantity) :
    ∀ p ∈ (applyOps db ops).products, 0 ≤ p.quantity ∧ p.quantity ≤ p.max_quantity := by
  have hgood : GoodProducts db.products := by
    constructor
    · intro p hp
      obtain ⟨h1, h2⟩ := hinit p hp
      exact ⟨h1, le_of_eq h2⟩
    · intro p hp q hq hid
      have hpq : p = q := List.inj_on_of_nodup_map hids hp hq hid
      rw [hpq]
  exact (good_applyOps ops db hgood).1

/-- The concrete database for the C1 witness: stock 4 of max 4. -/
def c1Db : DB :=
  { products := [{ id := "p1", name := "P", price := 3, quantity := 4, max_quantity := 4 }],
    orders := [] }

/-- The concrete operation sequence for the C1 witness: an over-allocating
creation, a line-item update and a deletion. -/
def c1Ops : List Op :=
  [Op.create "o1"
     { name := "O", description := "", status := Status.pendente,
       products := [⟨"p1", 9, false⟩] },
   Op.update "o1" { products := some [⟨"p1", 1, false⟩] },
   Op.delete "o1"]

/-- Witness for C1 at a concrete run: one product with stock 4 = max 4; the
over-allocating order creation, the update and the deletion keep the
quantity within bounds. -/
theorem inventory_bounds_invariant_witness :
    (c1Db.products.map Product.id).Nodup ∧
    ∀ p ∈ (applyOps c1Db c1Ops).products,
      0 ≤ p.quantity ∧ p.quantity ≤ p.max_quantity := by
  constructor
  · decide
  · exact inventory_bounds_invariant c1Db c1Ops (by decide)
      (by intro p hp; simp only [c1Db, List.mem_singleton] at hp; subst hp; constructor <;> decide)

end Imaginart
